import Mathlib

/-!
Verification of the hachoir-metadata video extractors
(`src/hachoir-metadata/hachoir_metadata/video.py`).

The extractors walk an already-parsed, read-only field tree and populate a
metadata record.  The field tree and the record model live outside `src/`
(hachoir_core / hachoir_parser / hachoir_metadata.metadata), so:

* each format's field tree is embedded as a structure holding exactly the
  fields that `video.py` reads, with `Option` for fields whose presence the
  code tests (or whose absence it catches as `MissingField`), and plain
  fields where the external parser always materializes them;
* the metadata record is modelled from the spec (§3, §4.1);
* Python floats are idealized as exact rationals (`ℚ`), so the literal
  `1e-9` stands for the exact value `1 / 10^9`;
* Python exceptions are `Except String`: `HachoirError`, `MissingField`,
  `TypeError` and `ZeroDivisionError` become `.error` values.
-/

set_option linter.unusedVariables false
set_option linter.unnecessarySimpa false

/-! ## Metadata record model -/

/-- The closed vocabulary of attribute names that `video.py` assigns. -/
inductive Attr where
  | title | url | copyright | creation_date | subtitle_author | duration
  | producer | language | compression | width | height | sample_rate
  | nb_channel | bits_per_sample | bits_per_pixel | format_version
  | frame_rate | comment | last_modification | album | track_number
  | author | bit_rate
deriving DecidableEq, Repr

/-- A value stored in a metadata attribute.  `rat` carries durations (in
seconds) and other idealized floats; `pair` is the ASF `(value, text)`
bit-rate tuple; `msg` is an i18n-formatted message kept as its template
together with its numeric argument (text rendering is out of scope). -/
inductive MValue where
  | int (n : Int)
  | rat (q : ℚ)
  | str (s : String)
  | pair (n : Int) (s : String)
  | msg (fmt : String) (arg : ℚ)
deriving DecidableEq, Repr

/-- Modelled from the spec (§4.1): a value that does not count as a
candidate ("appends a non-empty candidate"): the empty string. -/
def MValue.isEmptyVal : MValue → Bool
  | .str s => s = ""
  | _ => false

/-- Modelled from the spec (§3, §4.1): a metadata record is a mapping from
attribute name to an ordered list of candidate values; it is represented
as the insertion-ordered list of (attribute, value) assignments. -/
structure Metadata where
  entries : List (Attr × MValue)
deriving DecidableEq, Repr

def Metadata.empty : Metadata := ⟨[]⟩

/-- The ordered candidate list of one attribute. -/
def Metadata.valuesOf (m : Metadata) (a : Attr) : List MValue :=
  (m.entries.filter (fun e => e.1 = a)).map Prod.snd

/-- Modelled from the spec (§4.1): `setAttribute` appends a non-empty
candidate, ignoring duplicates. -/
def Metadata.set (m : Metadata) (a : Attr) (v : MValue) : Metadata :=
  if v.isEmptyVal then m
  else if (m.valuesOf a).contains v then m
  else ⟨m.entries ++ [(a, v)]⟩

/-- Modelled from the spec (§4.1): presence of an attribute. -/
def Metadata.has (m : Metadata) (a : Attr) : Bool :=
  !(m.valuesOf a).isEmpty

/-- Modelled from the spec (§3): the "best current value" of an attribute,
with last-write-wins conflict resolution. -/
def Metadata.get? (m : Metadata) (a : Attr) : Option MValue :=
  (m.valuesOf a).getLast?

/-- A `MultipleMetadata` record: top-level attributes plus named stream
groups `(name, description, record)`, appended in call order (spec §4.1). -/
structure MultiMeta where
  meta : Metadata
  groups : List (String × String × Metadata)
deriving DecidableEq, Repr

def MultiMeta.empty : MultiMeta := ⟨Metadata.empty, []⟩

def MultiMeta.setMeta (m : MultiMeta) (a : Attr) (v : MValue) : MultiMeta :=
  ⟨m.meta.set a v, m.groups⟩

def MultiMeta.addGroup (m : MultiMeta) (name desc : String) (g : Metadata) :
    MultiMeta :=
  ⟨m.meta, m.groups ++ [(name, desc, g)]⟩

/-! ### Record lemmas -/

theorem Metadata.valuesOf_append (es es' : List (Attr × MValue)) (a : Attr) :
    Metadata.valuesOf ⟨es ++ es'⟩ a =
      Metadata.valuesOf ⟨es⟩ a ++ Metadata.valuesOf ⟨es'⟩ a := by
  simp [Metadata.valuesOf, List.filter_append]

theorem Metadata.valuesOf_set_ne (m : Metadata) (a b : Attr) (v : MValue)
    (h : b ≠ a) : (m.set a v).valuesOf b = m.valuesOf b := by
  unfold Metadata.set
  split
  · rfl
  · split
    · rfl
    · show Metadata.valuesOf ⟨m.entries ++ [(a, v)]⟩ b = m.valuesOf b
      rw [Metadata.valuesOf_append]
      have hone : Metadata.valuesOf ⟨[(a, v)]⟩ b = [] := by
        simp [Metadata.valuesOf, List.filter_cons, Ne.symm h]
      rw [hone, List.append_nil]

theorem Metadata.valuesOf_set_notMem (m : Metadata) (a : Attr) (v : MValue)
    (hne : v.isEmptyVal = false) (hnm : v ∉ m.valuesOf a) :
    (m.set a v).valuesOf a = m.valuesOf a ++ [v] := by
  unfold Metadata.set
  rw [hne]
  simp only [Bool.false_eq_true, if_false]
  have hc : (m.valuesOf a).contains v = false := by
    simpa using hnm
  rw [hc]
  simp only [Bool.false_eq_true, if_false]
  show Metadata.valuesOf ⟨m.entries ++ [(a, v)]⟩ a = m.valuesOf a ++ [v]
  rw [Metadata.valuesOf_append]
  have hone : Metadata.valuesOf ⟨[(a, v)]⟩ a = [v] := by
    simp [Metadata.valuesOf, List.filter_cons]
  rw [hone]

theorem Metadata.set_of_mem (m : Metadata) (a : Attr) (v : MValue)
    (h : v ∈ m.valuesOf a) : m.set a v = m := by
  unfold Metadata.set
  split
  · rfl
  · have : (m.valuesOf a).contains v = true := by simpa using h
    rw [this]
    simp

theorem Metadata.mem_valuesOf_set (m : Metadata) (a : Attr) (v : MValue)
    (hne : v.isEmptyVal = false) : v ∈ (m.set a v).valuesOf a := by
  by_cases h : v ∈ m.valuesOf a
  · rw [Metadata.set_of_mem m a v h]; exact h
  · rw [Metadata.valuesOf_set_notMem m a v hne h]
    exact List.mem_append_right _ (List.mem_singleton.mpr rfl)

theorem Metadata.mem_valuesOf_set_mono (m : Metadata) (a b : Attr)
    (v w : MValue) (h : v ∈ m.valuesOf b) : v ∈ (m.set a w).valuesOf b := by
  unfold Metadata.set
  split
  · exact h
  · split
    · exact h
    · show v ∈ Metadata.valuesOf ⟨m.entries ++ [(a, w)]⟩ b
      rw [Metadata.valuesOf_append]
      exact List.mem_append_left _ h

theorem MultiMeta.valuesOf_setMeta_ne (m : MultiMeta) (a b : Attr)
    (v : MValue) (h : b ≠ a) :
    (m.setMeta a v).meta.valuesOf b = m.meta.valuesOf b :=
  Metadata.valuesOf_set_ne m.meta a b v h

theorem MultiMeta.groups_setMeta (m : MultiMeta) (a : Attr) (v : MValue) :
    (m.setMeta a v).groups = m.groups := rfl

theorem MultiMeta.meta_addGroup (m : MultiMeta) (name desc : String)
    (g : Metadata) : (m.addGroup name desc g).meta = m.meta := rfl

/-! ## External helpers (hachoir_core, not under `src/`) -/

/-- Modelled from the spec: `hachoir_core.tools.makePrintable` (not under
`src/`) sanitizes a string for display; the spec treats descriptor strings
as already-decoded text, so it is modelled as the identity. -/
def makePrintable (s : String) : String := s

/-- Modelled from the spec (§4.3): `hachoir_core.tools.durationWin64` (not
under `src/`) decodes a 64-bit Windows duration counted in 100 ns ticks
into seconds. -/
def durationWin64 (ticks : Nat) : ℚ := (ticks : ℚ) / 10000000

/-- Modelled from the spec: `hachoir_parser.container.mkv.dateToDatetime`
(not under `src/`) converts the raw Matroska date value to a timestamp;
modelled as the identity on its textual representation. -/
def dateToDatetime (s : String) : String := s

/-- Python `int()` truncation toward zero of an (idealized) float. -/
def truncQ (q : ℚ) : Int := q.num.tdiv q.den

/-! ## Matroska (`MkvMetadata`) -/

/-- The fields of a Matroska `Info` block that `processInfo` reads.
`duration` is `Duration/float`, `timecodeScale` is
`TimecodeScale/unsigned`, the rest are the date, application and title
fields. -/
structure MkvInfo where
  duration : Option ℚ
  timecodeScale : Option Nat
  dateUTC : Option String
  writingApp : Option String
  muxingApp : Option String
  title : Option String
deriving DecidableEq, Repr

/-- The `Video` sub-block of a track (`Video/PixelWidth/unsigned`,
`Video/PixelHeight/unsigned`); `none` components raise `MissingField`. -/
structure MkvVideoBlock where
  pixelWidth : Option Nat
  pixelHeight : Option Nat
deriving DecidableEq, Repr

/-- The `Audio` sub-block of a track (`Audio/SamplingFrequency/float`,
`Audio/Channels/unsigned`); `none` components raise `MissingField`. -/
structure MkvAudioBlock where
  samplingFrequency : Option ℚ
  channels : Option Nat
deriving DecidableEq, Repr

/-- One Matroska `TrackEntry`.  `trackType` is the display text of
`TrackType/enum`; `language` carries the `(value, display)` pair of
`Language/string`; `codecID` is `CodecID/string`. -/
structure MkvTrack where
  trackType : Option String
  name : Option String
  language : Option (String × String)
  codecID : Option String
  video : Option MkvVideoBlock
  audio : Option MkvAudioBlock
deriving DecidableEq, Repr

/-- One Matroska `SimpleTag` (`TagName/unicode`, `TagString/unicode`). -/
structure MkvSimpleTag where
  tagName : Option String
  tagString : Option String
deriving DecidableEq, Repr

/-- One direct child of a `Segment`, dispatched on its name in
`processSegment`; `Tags[..]` holds an array of `Tag`, each holding an
array of `SimpleTag`. -/
inductive MkvSegmentField where
  | info (i : MkvInfo)
  | tags (ts : List (List MkvSimpleTag))
  | tracks (ts : List MkvTrack)
  | other
deriving DecidableEq, Repr

/-- A parsed Matroska file: the `Segment` array.  `"Segment[0]" in mkv`
holds exactly when the array is non-empty. -/
structure MkvFile where
  segments : List (List MkvSegmentField)
deriving DecidableEq, Repr

/-- Table `MkvMetadata.tag_key`: the allow-list mapping tag names to
attributes. -/
def MkvMetadata.tag_key : String → Option Attr
  | "TITLE" => some .title
  | "URL" => some .url
  | "COPYRIGHT" => some .copyright
  | "DATE_RECORDED" => some .creation_date
  | "SUBTITLE" => some .subtitle_author
  | _ => none

/-- The first statement of `MkvMetadata.processInfo`: the duration is set
only when both fields are present and the raw duration is positive;
`1e-9` is the idealized exact `1 / 10^9`. -/
def MkvMetadata.processInfoDuration (m : MultiMeta) (info : MkvInfo) :
    MultiMeta :=
  match info.duration, info.timecodeScale with
  | some d, some ts =>
      if 0 < d then
        m.setMeta .duration (.rat (d * (ts : ℚ) * (1 / 1000000000)))
      else m
  | _, _ => m

/-- The remaining statements of `MkvMetadata.processInfo`: creation date,
producer from `WritingApp` then overridden by `MuxingApp`, title. -/
def MkvMetadata.processInfoRest (m : MultiMeta) (info : MkvInfo) : MultiMeta :=
  let m := match info.dateUTC with
    | some dt => m.setMeta .creation_date (.str (dateToDatetime dt))
    | none => m
  let m := match info.writingApp with
    | some w => m.setMeta .producer (.str w)
    | none => m
  let m := match info.muxingApp with
    | some x => m.setMeta .producer (.str x)
    | none => m
  match info.title with
  | some t => m.setMeta .title (.str t)
  | none => m

/-- Method `MkvMetadata.processInfo`: the straight-line suite of assignments. -/
def MkvMetadata.processInfo (m : MultiMeta) (info : MkvInfo) : MultiMeta :=
  MkvMetadata.processInfoRest (MkvMetadata.processInfoDuration m info) info

/-- Method `MkvMetadata.processSimpleTag`: only allow-listed tag names map to
attributes. -/
def MkvMetadata.processSimpleTag (m : MultiMeta) (tag : MkvSimpleTag) :
    MultiMeta :=
  match tag.tagName, tag.tagString with
  | some name, some value =>
      match MkvMetadata.tag_key name with
      | some key => m.setMeta key (.str value)
      | none => m
  | _, _ => m

/-- Method `MkvMetadata.trackCommon`: track title, and language unless it is the
`mis`/`und` sentinel. -/
def MkvMetadata.trackCommon (track : MkvTrack) (meta : Metadata) : Metadata :=
  let meta := match track.name with
    | some n => meta.set .title (.str n)
    | none => meta
  match track.language with
  | some lang =>
      if lang.1 ≠ "mis" ∧ lang.1 ≠ "und" then
        meta.set .language (.str lang.2)
      else meta
  | none => meta

/-- The body of `MkvMetadata.processVideo`'s `try` block: sequential reads;
the first `MissingField` aborts the remaining reads, keeping the
partially-filled record. -/
def MkvMetadata.processVideoBody (track : MkvTrack) : Metadata :=
  let video := MkvMetadata.trackCommon track Metadata.empty
  match track.codecID with
  | none => video
  | some c =>
    let video := video.set .compression (.str c)
    match track.video with
    | none => video
    | some vb =>
      match vb.pixelWidth with
      | none => video
      | some w =>
        let video := video.set .width (.int w)
        match vb.pixelHeight with
        | none => video
        | some h => video.set .height (.int h)

/-- The body of `MkvMetadata.processAudio`'s `try` block: the `Audio`
sub-block reads come before the codec read, and the first `MissingField`
aborts the remaining reads, keeping the partially-filled record. -/
def MkvMetadata.processAudioBody (track : MkvTrack) : Metadata :=
  let audio := MkvMetadata.trackCommon track Metadata.empty
  match track.audio with
  | none =>
      match track.codecID with
      | none => audio
      | some c => audio.set .compression (.str c)
  | some ab =>
      match ab.samplingFrequency with
      | none => audio
      | some f =>
        let audio := audio.set .sample_rate (.int (truncQ f))
        match ab.channels with
        | none => audio
        | some ch =>
          let audio := audio.set .nb_channel (.int ch)
          match track.codecID with
          | none => audio
          | some c => audio.set .compression (.str c)

/-- The body of `MkvMetadata.processSubtitle`'s `try` block. -/
def MkvMetadata.processSubtitleBody (track : MkvTrack) : Metadata :=
  let sub := MkvMetadata.trackCommon track Metadata.empty
  match track.codecID with
  | none => sub
  | some c => sub.set .compression (.str c)

/-- The stream-group entry contributed by one track (name, description,
record), or `none` for an unclassified track. -/
def MkvMetadata.trackGroupEntry (track : MkvTrack) :
    Option (String × String × Metadata) :=
  match track.trackType with
  | none => none
  | some ty =>
    if ty = "video" then
      some ("video[]", "Video stream", MkvMetadata.processVideoBody track)
    else if ty = "audio" then
      some ("audio[]", "Audio stream", MkvMetadata.processAudioBody track)
    else if ty = "subtitle" then
      some ("subtitle[]", "Subtitle", MkvMetadata.processSubtitleBody track)
    else none

/-- Method `MkvMetadata.processTrack`: classify by `TrackType/enum` display and
append the (possibly partial) record to the matching stream group. -/
def MkvMetadata.processTrack (m : MultiMeta) (track : MkvTrack) : MultiMeta :=
  match MkvMetadata.trackGroupEntry track with
  | some (name, desc, rec) => m.addGroup name desc rec
  | none => m

/-- Method `MkvMetadata.processTracks`: process every `TrackEntry` of the array. -/
def MkvMetadata.processTracks (m : MultiMeta) (tracks : List MkvTrack) :
    MultiMeta :=
  tracks.foldl MkvMetadata.processTrack m

/-- Method `MkvMetadata.processSegment`: dispatch each child on its name. -/
def MkvMetadata.processSegment (m : MultiMeta)
    (fields : List MkvSegmentField) : MultiMeta :=
  fields.foldl
    (fun m f =>
      match f with
      | .info i => MkvMetadata.processInfo m i
      | .tags ts =>
          ts.foldl (fun m tag => tag.foldl MkvMetadata.processSimpleTag m) m
      | .tracks ts => MkvMetadata.processTracks m ts
      | .other => m)
    m

/-- Method `MkvMetadata.extract`: raises `HachoirError` when `Segment[0]` is
absent, otherwise processes every segment. -/
def MkvMetadata.extract (mkv : MkvFile) : Except String MultiMeta :=
  if mkv.segments.isEmpty then .error "Invalid Matroska video"
  else .ok (mkv.segments.foldl MkvMetadata.processSegment MultiMeta.empty)

/-! ## FLV (`FlvMetadata`) -/

/-- The first FLV audio stream header (`flv["audio[0]"]`): the parser
materializes the flag and codec fields, so they are total; `music_data`
is the description of the optional finer-grained codec chunk. -/
structure FlvAudioHdr where
  sampleRate : Int
  is_16bit : Bool
  codecDisplay : String
  music_data : Option String
  is_stereo : Bool
deriving DecidableEq, Repr

/-- The first FLV video stream header (`flv["video[0]"]`). -/
structure FlvVideoHdr where
  codecDisplay : String
deriving DecidableEq, Repr

/-- A typed value of one side-channel (AMF) entry. -/
inductive AmfValue where
  | num (q : ℚ)
  | str (s : String)
deriving DecidableEq, Repr

def AmfValue.toM : AmfValue → MValue
  | .num q => .rat q
  | .str s => .str s

/-- One item of the FLV side-channel metadata array: its `key` field, its
`value` sub-field, and the textual value of the item itself (used only by
the `metadatadate` branch, which reads `entry.value`). -/
structure AmfItem where
  key : String
  value : AmfValue
  selfValue : String
deriving DecidableEq, Repr

/-- A parsed FLV file.  The source reads only `audio[0]` / `video[0]`, so
the header arrays are kept whole to express that; `size` is the total
stream size; `metadataEntry1` is `metadata/entry[1]` when present. -/
structure FlvFile where
  audio : List FlvAudioHdr
  video : List FlvVideoHdr
  description : String
  metadataEntry1 : Option (List AmfItem)
  size : Nat
deriving DecidableEq, Repr

/-- The audio record built from `audio[0]`: sample rate, 16/8 bit depth,
compression preferring the MP3 `music_data` description, 2/1 channels. -/
def FlvMetadata.audioMeta (audio : FlvAudioHdr) : Metadata :=
  let meta := Metadata.empty.set .sample_rate (.int audio.sampleRate)
  let meta := if audio.is_16bit then meta.set .bits_per_sample (.int 16)
    else meta.set .bits_per_sample (.int 8)
  let meta :=
    match audio.music_data with
    | some description =>
        if audio.codecDisplay = "MP3" then meta.set .compression (.str description)
        else meta.set .compression (.str audio.codecDisplay)
    | none => meta.set .compression (.str audio.codecDisplay)
  if audio.is_stereo then meta.set .nb_channel (.int 2)
  else meta.set .nb_channel (.int 1)

/-- One branch of `FlvMetadata.extractAMF`; a value of the wrong Python
type raises `TypeError`. -/
def FlvMetadata.extractAMFItem (m : MultiMeta) (entry : AmfItem) :
    Except String MultiMeta :=
  if entry.key = "duration" then
    match entry.value with
    | .num q => .ok (m.setMeta .duration (.rat q))
    | .str _ => .error "TypeError"
  else if entry.key = "creator" then
    .ok (m.setMeta .producer entry.value.toM)
  else if entry.key = "audiosamplerate" then
    match entry.value with
    | .num q => .ok (m.setMeta .sample_rate (.int (truncQ q)))
    | .str _ => .error "TypeError"
  else if entry.key = "framerate" then
    .ok (m.setMeta .frame_rate entry.value.toM)
  else if entry.key = "metadatacreator" then
    .ok (m.setMeta .producer entry.value.toM)
  else if entry.key = "metadatadate" then
    .ok (m.setMeta .creation_date (.str entry.selfValue))
  else if entry.key = "width" then
    match entry.value with
    | .num q => .ok (m.setMeta .width (.int (truncQ q)))
    | .str _ => .error "TypeError"
  else if entry.key = "height" then
    match entry.value with
    | .num q => .ok (m.setMeta .height (.int (truncQ q)))
    | .str _ => .error "TypeError"
  else .ok m

/-- Method `FlvMetadata.extractAMF`: scan the side-channel items in order. -/
def FlvMetadata.extractAMF (m : MultiMeta) (items : List AmfItem) :
    Except String MultiMeta :=
  items.foldlM FlvMetadata.extractAMFItem m

/-- The straight-line start of `FlvMetadata.extract`: the two optional
stream groups read from `audio[0]` / `video[0]` only, then
`format_version` from the file description. -/
def FlvMetadata.preAMF (flv : FlvFile) : MultiMeta :=
  let m := match flv.audio.head? with
    | some audio =>
        MultiMeta.empty.addGroup "audio" "" (FlvMetadata.audioMeta audio)
    | none => MultiMeta.empty
  let m := match flv.video.head? with
    | some video =>
        m.addGroup "video" ""
          (Metadata.empty.set .compression (.str video.codecDisplay))
    | none => m
  m.setMeta .format_version (.str flv.description)

/-- Everything `FlvMetadata.extract` does before the final derived
bit-rate step: the stream groups and `format_version`, then the
side-channel scan when `metadata/entry[1]` is present. -/
def FlvMetadata.extractPre (flv : FlvFile) : Except String MultiMeta :=
  match flv.metadataEntry1 with
  | some items => FlvMetadata.extractAMF (FlvMetadata.preAMF flv) items
  | none => .ok (FlvMetadata.preAMF flv)

/-- The final step of `FlvMetadata.extract`: when a duration was
established, `bit_rate = flv.size / timedelta2seconds(duration)`; a zero
duration raises `ZeroDivisionError`. -/
def FlvMetadata.finalize (size : Nat) (m : MultiMeta) :
    Except String MultiMeta :=
  if m.meta.has .duration then
    match m.meta.get? .duration with
    | some (.rat q) =>
        if q = 0 then .error "ZeroDivisionError"
        else .ok (m.setMeta .bit_rate (.rat ((size : ℚ) / q)))
    | _ => .ok m
  else .ok m

/-- Method `FlvMetadata.extract`. -/
def FlvMetadata.extract (flv : FlvFile) : Except String MultiMeta :=
  (FlvMetadata.extractPre flv).bind (FlvMetadata.finalize flv.size)

/-! ## MOV (`MovMetadata`) -/

/-- A MOV movie header block (`movie_hdr`): the parser materializes all of
these fields.  `play_speed` is a fixed-point value read as a float;
`volume` is a 0–255 integer. -/
structure MovHdr where
  duration : Nat
  time_scale : Nat
  creat_date_display : String
  lastmod_date_display : String
  play_speed : ℚ
  volume : Nat
deriving DecidableEq, Repr

/-- One direct child of the `movie` atom. -/
inductive MovMovieField where
  | movieHdr (hdr : MovHdr)
  | otherField
deriving DecidableEq, Repr

/-- One top-level MOV atom. -/
inductive MovAtom where
  | movie (fields : List MovMovieField)
  | otherAtom
deriving DecidableEq, Repr

/-- A parsed MOV file: its top-level atoms. -/
structure MovFile where
  atoms : List MovAtom
deriving DecidableEq, Repr

/-- Method `MovMetadata.processMovieHeader`: the duration uses Python 2 integer
division (`hdr["duration"].value * 1000 / hdr["time_scale"].value`), so a
zero time scale raises `ZeroDivisionError`; the two comments are kept as
(template, numeric argument) messages. -/
def MovMetadata.processMovieHeader (m : Metadata) (hdr : MovHdr) :
    Except String Metadata :=
  if hdr.time_scale = 0 then .error "ZeroDivisionError"
  else
    let m := m.set .duration (.int (hdr.duration * 1000 / hdr.time_scale))
    let m := m.set .creation_date (.str hdr.creat_date_display)
    let m := m.set .last_modification (.str hdr.lastmod_date_display)
    let m := m.set .comment (.msg "Play speed: %.1f%%" (hdr.play_speed * 100))
    .ok (m.set .comment
      (.msg "User volume: %.1f%%" ((((hdr.volume : ℚ) * 100) / 255).floor : ℚ)))

/-- Method `MovMetadata.processMovie`: process every `movie_hdr` child. -/
def MovMetadata.processMovie (m : Metadata) (fields : List MovMovieField) :
    Except String Metadata :=
  fields.foldlM
    (fun m f =>
      match f with
      | .movieHdr hdr => MovMetadata.processMovieHeader m hdr
      | .otherField => .ok m)
    m

/-- Method `MovMetadata.extract`: process the `movie` child of every atom that
has one. -/
def MovMetadata.extract (mov : MovFile) : Except String Metadata :=
  mov.atoms.foldlM
    (fun m atom =>
      match atom with
      | .movie fields => MovMetadata.processMovie m fields
      | .otherAtom => .ok m)
    Metadata.empty

/-! ## ASF (`AsfMetadata`) -/

/-- The value of one ASF extended descriptor; Python booleans are integers
(`True == 1`), so boolean descriptors are carried as `int` 0/1. -/
inductive DescValue where
  | int (n : Int)
  | str (s : String)
deriving DecidableEq, Repr

/-- Python truthiness test `not value` on a descriptor value. -/
def DescValue.isFalsy : DescValue → Bool
  | .int n => n = 0
  | .str s => s = ""

/-- Python `"%s" % value` rendering of a descriptor value. -/
def DescValue.display : DescValue → String
  | .int n => toString n
  | .str s => s

def DescValue.toM : DescValue → MValue
  | .int n => .int n
  | .str s => .str s

/-- One ASF extended descriptor (`ext_desc/content/descriptor[..]`) with
its `type`, `name` and `value` fields. -/
structure AsfDescriptor where
  type : Nat
  name : String
  value : DescValue
deriving DecidableEq, Repr

/-- Modelled from the spec: the byte-array type tag of the external ASF
descriptor parser (`hachoir_parser.video.asf.Descriptor.TYPE_BYTE_ARRAY`,
not under `src/`). -/
def ASF_TYPE_BYTE_ARRAY : Nat := 1

/-- Set `AsfMetadata.SKIP_EXT_DESC`: the fixed block-list of raw descriptor
keys. -/
def AsfMetadata.SKIP_EXT_DESC : List String :=
  ["WMFSDKNeeded", "WMFSDKVersion", "Buffer Average", "VBR Peak"]

/-- Table `AsfMetadata.EXT_DESC_TO_ATTR`: the fixed remap table from stripped
descriptor keys to attributes. -/
def AsfMetadata.EXT_DESC_TO_ATTR : String → Option Attr
  | "Encoder" => some .producer
  | "ToolName" => some .producer
  | "AlbumTitle" => some .album
  | "Track" => some .track_number
  | "TrackNumber" => some .track_number
  | "Year" => some .creation_date
  | _ => none

/-- The `data` dictionary of `AsfMetadata.processHeader`, as an
insertion-ordered association list (Python 2 dict iteration order is
implementation-defined; this model iterates in insertion order). -/
abbrev DataMap := List (String × DescValue)

def dictInsert (d : DataMap) (k : String) (v : DescValue) : DataMap :=
  if d.any (fun e => e.1 = k) then
    d.map (fun e => if e.1 = k then (k, v) else e)
  else d ++ [(k, v)]

def dictLookup (d : DataMap) (k : String) : Option DescValue :=
  (d.find? (fun e => e.1 = k)).map Prod.snd

def dictErase (d : DataMap) (k : String) : DataMap :=
  d.filter (fun e => e.1 ≠ k)

/-- The characters after the first `/`, or `none` when there is no
slash. -/
def dropThroughSlash : List Char → Option (List Char)
  | [] => none
  | c :: cs => if c = '/' then some cs else dropThroughSlash cs

/-- The operation `key.split("/", 1)[1]` applied when the key contains a slash:
strip the namespace part before the first `/`. -/
def stripNamespace (key : String) : String :=
  match dropThroughSlash key.data with
  | some rest => ⟨rest⟩
  | none => key

/-- One iteration of the descriptor loop of `AsfMetadata.processHeader`:
skip byte-array descriptors, skip block-listed raw keys, decode the
value, strip the key's namespace, skip falsy values, then store. -/
def AsfMetadata.descStep (d : DataMap) (desc : AsfDescriptor) : DataMap :=
  if desc.type = ASF_TYPE_BYTE_ARRAY then d
  else if desc.name ∈ AsfMetadata.SKIP_EXT_DESC then d
  else
    let value := match desc.value with
      | .str s => DescValue.str (makePrintable s)
      | .int n => DescValue.int n
    let key := stripNamespace desc.name
    if value.isFalsy then d
    else dictInsert d key value

/-- The `data` dictionary extracted from the descriptor array. -/
def AsfMetadata.buildData (descs : List AsfDescriptor) : DataMap :=
  descs.foldl AsfMetadata.descStep []

/-- The ToolName/ToolVersion merge of `AsfMetadata.processHeader`: when
both keys are present, set `producer` and delete both. -/
def AsfMetadata.mergeTool (m : MultiMeta) (d : DataMap) :
    MultiMeta × DataMap :=
  match dictLookup d "ToolName", dictLookup d "ToolVersion" with
  | some tn, some tv =>
      (m.setMeta .producer
        (.str (tn.display ++ " (version " ++ tv.display ++ ")")),
       dictErase (dictErase d "ToolName") "ToolVersion")
  | _, _ => (m, d)

/-- The `IsVBR` extraction of `AsfMetadata.processHeader`: capture
`data["IsVBR"] == 1` and delete the key. -/
def AsfMetadata.takeIsVbr (d : DataMap) : Option Bool × DataMap :=
  match dictLookup d "IsVBR" with
  | some v => (some (v = DescValue.int 1), dictErase d "IsVBR")
  | none => (none, d)

/-- One iteration of the `data` store loop: remapped keys become that
attribute, every other key is folded into a `key=value` comment. -/
def AsfMetadata.storeStep (m : MultiMeta) (kv : String × DescValue) :
    MultiMeta :=
  match AsfMetadata.EXT_DESC_TO_ATTR kv.1 with
  | some a => m.setMeta a kv.2.toM
  | none =>
      m.setMeta .comment (.str (makePrintable kv.1 ++ "=" ++ kv.2.display))

def AsfMetadata.storeData (m : MultiMeta) (d : DataMap) : MultiMeta :=
  d.foldl AsfMetadata.storeStep m

/-- The whole extended-descriptor step of `AsfMetadata.processHeader`;
also returns the captured tri-state VBR flag. -/
def AsfMetadata.processExtDesc (m : MultiMeta) (descs : List AsfDescriptor) :
    MultiMeta × Option Bool :=
  let d := AsfMetadata.buildData descs
  let (m, d) := AsfMetadata.mergeTool m d
  let (is_vbr, d) := AsfMetadata.takeIsVbr d
  (AsfMetadata.storeData m d, is_vbr)

/-- The ASF `file_prop/content` block; the parser materializes these
fields, so they are total.  `seekable` is the Python truthiness of the
`seekable` field object; `max_bitrate` carries its raw value and its
display text. -/
structure AsfFileProp where
  creation_date : String
  play_duration : Nat
  seekable : Bool
  max_bitrate_value : Int
  max_bitrate_display : String
deriving DecidableEq, Repr

/-- The descriptive bit-rate text of `AsfMetadata.processHeader`,
annotated by the tri-state VBR flag. -/
def AsfMetadata.bitRateText (is_vbr : Option Bool) (display : String) :
    String :=
  if is_vbr = some true then "VBR (" ++ display ++ " max)"
  else if is_vbr = some false then display ++ " (CBR)"
  else display ++ " (max)"

/-- The `file_prop/content` step of `AsfMetadata.processHeader`. -/
def AsfMetadata.processFileProp (m : MultiMeta) (is_vbr : Option Bool)
    (prop : AsfFileProp) : MultiMeta :=
  let m := m.setMeta .creation_date (.str prop.creation_date)
  let m := m.setMeta .duration (.rat (durationWin64 prop.play_duration))
  let m := if prop.seekable then m.setMeta .comment (.str "Is seekable") else m
  m.setMeta .bit_rate (.pair prop.max_bitrate_value
    (AsfMetadata.bitRateText is_vbr prop.max_bitrate_display))

/-- The content of one ASF stream-properties entry. -/
inductive AsfStreamContent where
  | audioHdr (twoccDisplay : String) (sample_rate : Int) (bits_per_sample : Int)
  | videoHdr (width : Int) (height : Int) (bmp_info : Option (String × Int))
  | otherContent
deriving DecidableEq, Repr

/-- The ASF `header/content` block: the optional sub-blocks read by
`processHeader`, the flat `avg_bitrate` array used by `streamProperty`,
and the stream-properties array.  The top-level metadata block fields are
the three optional reads of its `try` block. -/
structure AsfHeader where
  ext_desc : Option (List AsfDescriptor)
  file_prop : Option AsfFileProp
  bit_rates : List Int
  stream_props : List AsfStreamContent
  metadataTitle : Option String
  metadataAuthor : Option String
  metadataCopyright : Option String
deriving DecidableEq, Repr

/-- Method `AsfMetadata.streamProperty`: a fresh stream record with the average
bit rate looked up by the raw stream index, when that entry exists. -/
def AsfMetadata.streamProperty (header : AsfHeader) (index : Nat) : Metadata :=
  match header.bit_rates.get? index with
  | some br => Metadata.empty.set .bit_rate (.int br)
  | none => Metadata.empty

/-- The per-stream loop of `AsfMetadata.processHeader`: `index` is the raw
enumeration index used for the bit-rate lookup, while `audio_index` and
`video_index` are the independent 1-based per-kind counters used for the
group names. -/
def AsfMetadata.processStreams (header : AsfHeader) (m : MultiMeta)
    (streams : List AsfStreamContent) (index audio_index video_index : Nat) :
    MultiMeta :=
  match streams with
  | [] => m
  | stream :: rest =>
    match stream with
    | .audioHdr twocc sr bps =>
        let meta := AsfMetadata.streamProperty header index
        let meta :=
          if meta.has .compression then meta
          else meta.set .compression (.str twocc)
        let meta := meta.set .sample_rate (.int sr)
        let meta := meta.set .bits_per_sample (.int bps)
        AsfMetadata.processStreams header
          (m.addGroup ("audio[" ++ toString audio_index ++ "]")
            ("Audio stream #" ++ toString audio_index) meta)
          rest (index + 1) (audio_index + 1) video_index
    | .videoHdr w h bmp =>
        let meta := AsfMetadata.streamProperty header index
        let meta := meta.set .width (.int w)
        let meta := meta.set .height (.int h)
        let meta :=
          match bmp with
          | some (codec, bpp) =>
              let meta :=
                if meta.has .compression then meta
                else meta.set .compression (.str codec)
              meta.set .bits_per_pixel (.int bpp)
          | none => meta
        AsfMetadata.processStreams header
          (m.addGroup ("video[" ++ toString video_index ++ "]")
            ("Video stream #" ++ toString video_index) meta)
          rest (index + 1) audio_index (video_index + 1)
    | .otherContent =>
        AsfMetadata.processStreams header m rest (index + 1) audio_index
          video_index

/-- The `metadata/content` step of `AsfMetadata.processHeader`: three
sequential reads inside one `try`; the first `MissingField` aborts only
this block, keeping the assignments already made. -/
def AsfMetadata.processMetadataBlock (m : MultiMeta) (header : AsfHeader) :
    MultiMeta :=
  match header.metadataTitle with
  | none => m
  | some t =>
    let m := m.setMeta .title (.str t)
    match header.metadataAuthor with
    | none => m
    | some a =>
      let m := m.setMeta .author (.str a)
      match header.metadataCopyright with
      | none => m
      | some c => m.setMeta .copyright (.str c)

/-- Method `AsfMetadata.processHeader`.  The local `compression` list built from
`codec_list/content` is dead in the source (its only use is commented
out), so the codec-list loop is omitted. -/
def AsfMetadata.processHeader (header : AsfHeader) : MultiMeta :=
  let (m, is_vbr) :=
    match header.ext_desc with
    | some descs => AsfMetadata.processExtDesc MultiMeta.empty descs
    | none => (MultiMeta.empty, none)
  let m :=
    match header.file_prop with
    | some prop => AsfMetadata.processFileProp m is_vbr prop
    | none => m
  let m := AsfMetadata.processStreams header m header.stream_props 0 1 1
  AsfMetadata.processMetadataBlock m header

/-- A parsed ASF file: its `header/content` block when present. -/
structure AsfFile where
  header : Option AsfHeader
deriving DecidableEq, Repr

/-- Method `AsfMetadata.extract`. -/
def AsfMetadata.extract (asf : AsfFile) : Except String MultiMeta :=
  match asf.header with
  | some header => .ok (AsfMetadata.processHeader header)
  | none => .ok MultiMeta.empty

/-! ## Helper lemmas -/

theorem Metadata.getLast_valuesOf_set (m : Metadata) (a : Attr) (v : MValue)
    (hne : v.isEmptyVal = false) (hnm : v ∉ m.valuesOf a) :
    ((m.set a v).valuesOf a).getLast? = some v := by
  rw [Metadata.valuesOf_set_notMem m a v hne hnm]
  simp

theorem Metadata.has_eq_false_iff (m : Metadata) (a : Attr) :
    m.has a = false ↔ m.valuesOf a = [] := by
  simp [Metadata.has, List.isEmpty_iff]

/-- The creation-date, producer and title assignments of
`processInfoRest` never touch the duration attribute. -/
theorem MkvMetadata.processInfoRest_valuesOf_duration (m : MultiMeta)
    (info : MkvInfo) :
    (MkvMetadata.processInfoRest m info).meta.valuesOf .duration =
      m.meta.valuesOf .duration := by
  unfold MkvMetadata.processInfoRest
  cases info.dateUTC <;> cases info.writingApp <;> cases info.muxingApp <;>
    cases info.title <;>
    simp [MultiMeta.valuesOf_setMeta_ne, MultiMeta.setMeta,
      Metadata.valuesOf_set_ne]

/-- The duration assignment of `processInfoDuration` never touches the
producer attribute. -/
theorem MkvMetadata.processInfoDuration_valuesOf_producer (m : MultiMeta)
    (info : MkvInfo) :
    (MkvMetadata.processInfoDuration m info).meta.valuesOf .producer =
      m.meta.valuesOf .producer := by
  unfold MkvMetadata.processInfoDuration
  cases info.duration <;> cases info.timecodeScale <;>
    simp [MultiMeta.setMeta, Metadata.valuesOf_set_ne]
  split <;> simp [Metadata.valuesOf_set_ne]

/-- Last-write-wins for two successive producer assignments on a record
with no prior producer candidate: the second (non-empty) value is the
best value afterwards. -/
theorem MultiMeta.producer_override (m2 : MultiMeta) (w x : String)
    (h : m2.meta.valuesOf .producer = []) (hxe : x ≠ "") :
    (((m2.setMeta .producer (.str w)).setMeta .producer
      (.str x)).meta.valuesOf .producer).getLast? = some (.str x) := by
  have hxv : MValue.isEmptyVal (.str x) = false := by
    simp [MValue.isEmptyVal, hxe]
  have hL : (m2.setMeta .producer (.str w)).meta.valuesOf .producer = [] ∨
      (m2.setMeta .producer (.str w)).meta.valuesOf .producer =
        [MValue.str w] := by
    by_cases hwv : MValue.isEmptyVal (.str w) = true
    · left
      have hset : m2.meta.set .producer (.str w) = m2.meta := by
        unfold Metadata.set
        rw [hwv]
        simp
      show (m2.meta.set .producer (.str w)).valuesOf .producer = []
      rw [hset]
      exact h
    · right
      show (m2.meta.set .producer (.str w)).valuesOf .producer = [MValue.str w]
      rw [Metadata.valuesOf_set_notMem m2.meta .producer (.str w)
        (by simpa using hwv) (by rw [h]; exact List.not_mem_nil _), h]
      rfl
  by_cases hmem : MValue.str x ∈
      (m2.setMeta .producer (.str w)).meta.valuesOf .producer
  · rcases hL with hL | hL
    · rw [hL] at hmem
      exact absurd hmem (List.not_mem_nil _)
    · have hmem' := hmem
      rw [hL] at hmem'
      have hxw : MValue.str x = MValue.str w := List.mem_singleton.mp hmem'
      have hset : (m2.setMeta .producer (.str w)).meta.set .producer
          (.str x) = (m2.setMeta .producer (.str w)).meta :=
        Metadata.set_of_mem _ _ _ hmem
      show (((m2.setMeta .producer (.str w)).meta.set .producer
        (.str x)).valuesOf .producer).getLast? = some (MValue.str x)
      rw [hset, hL, hxw]
      rfl
  · exact Metadata.getLast_valuesOf_set _ _ _ hxv hmem

/-! ## Claim C1 (corrected) -/

/-- Claim C1, counterexample: the claim says every format raises a
structural error on a missing mandatory root section, but `AsfMetadata`,
`MovMetadata` and `FlvMetadata` return normally: on an ASF tree without
`header/content` the extractor returns an (empty) record and raises
nothing, and likewise for MOV without atoms and FLV without streams or
side-channel metadata. -/
theorem claimC1_counterexample :
    AsfMetadata.extract ⟨none⟩ = Except.ok MultiMeta.empty ∧
    MovMetadata.extract ⟨[]⟩ = Except.ok Metadata.empty ∧
    FlvMetadata.extract ⟨[], [], "Macromedia Flash video: version 1", none, 0⟩ =
      Except.ok (MultiMeta.empty.setMeta .format_version
        (.str "Macromedia Flash video: version 1")) :=
  ⟨rfl, rfl, rfl⟩

/-- Claim C1, amended: only the Matroska extractor raises on a missing
mandatory root section (`Segment[0]`), yielding no record; the ASF, MOV
and FLV extractors do not raise when their root section is absent and
instead return a record (empty, except for FLV's unconditional
`format_version`). -/
theorem claimC1_amended :
    (∀ mkv : MkvFile, mkv.segments = [] →
      MkvMetadata.extract mkv = Except.error "Invalid Matroska video") ∧
    (∀ asf : AsfFile, asf.header = none →
      AsfMetadata.extract asf = Except.ok MultiMeta.empty) ∧
    (∀ mov : MovFile, mov.atoms = [] →
      MovMetadata.extract mov = Except.ok Metadata.empty) ∧
    (∀ (desc : String) (sz : Nat),
      FlvMetadata.extract ⟨[], [], desc, none, sz⟩ =
        Except.ok (MultiMeta.empty.setMeta .format_version (.str desc))) := by
  refine ⟨?_, ?_, ?_, ?_⟩
  · intro mkv h
    simp [MkvMetadata.extract, h]
  · intro asf h
    simp [AsfMetadata.extract, h]
  · intro mov h
    simp [MovMetadata.extract, h]
    rfl
  · intro desc sz
    have hdur : (MultiMeta.empty.setMeta .format_version
        (.str desc)).meta.has .duration = false := by
      rw [Metadata.has_eq_false_iff,
        MultiMeta.valuesOf_setMeta_ne _ _ _ _ (by decide)]
      rfl
    show FlvMetadata.finalize sz
      (MultiMeta.empty.setMeta .format_version (.str desc)) = _
    unfold FlvMetadata.finalize
    rw [hdur]
    simp

/-- Claim C1, amended, witness at concrete inputs. -/
theorem claimC1_amended_witness :
    MkvMetadata.extract ⟨[]⟩ = Except.error "Invalid Matroska video" ∧
    AsfMetadata.extract ⟨none⟩ = Except.ok MultiMeta.empty ∧
    MovMetadata.extract ⟨[]⟩ = Except.ok Metadata.empty ∧
    FlvMetadata.extract ⟨[], [], "flv", none, 42⟩ =
      Except.ok (MultiMeta.empty.setMeta .format_version (.str "flv")) :=
  ⟨claimC1_amended.1 ⟨[]⟩ rfl, claimC1_amended.2.1 ⟨none⟩ rfl,
   claimC1_amended.2.2.1 ⟨[]⟩ rfl, claimC1_amended.2.2.2 "flv" 42⟩

/-! ## Claim C3 -/

/-- Claim C3: on a Matroska `Info` block the duration attribute is set to
raw-duration-ticks × timecode-scale × 1e-9 seconds, and only when both
fields are present and the raw duration is strictly positive; a raw
duration ≤ 0 (or a missing field) suppresses the attribute. -/
theorem claimC3 (m : MultiMeta) (info : MkvInfo)
    (hm : m.meta.valuesOf .duration = []) :
    (∀ (d : ℚ) (ts : Nat), info.duration = some d →
      info.timecodeScale = some ts → 0 < d →
      (MkvMetadata.processInfo m info).meta.get? .duration =
        some (.rat (d * (ts : ℚ) * (1 / 1000000000)))) ∧
    (∀ d : ℚ, info.duration = some d → d ≤ 0 →
      (MkvMetadata.processInfo m info).meta.has .duration = false) ∧
    ((info.duration = none ∨ info.timecodeScale = none) →
      (MkvMetadata.processInfo m info).meta.has .duration = false) := by
  refine ⟨?_, ?_, ?_⟩
  · intro d ts hd hts hpos
    unfold MkvMetadata.processInfo
    rw [Metadata.get?, MkvMetadata.processInfoRest_valuesOf_duration]
    unfold MkvMetadata.processInfoDuration
    simp only [hd, hts, if_pos hpos]
    exact Metadata.getLast_valuesOf_set m.meta .duration _ rfl
      (by rw [hm]; exact List.not_mem_nil _)
  · intro d hd hle
    unfold MkvMetadata.processInfo
    rw [Metadata.has_eq_false_iff, MkvMetadata.processInfoRest_valuesOf_duration]
    unfold MkvMetadata.processInfoDuration
    cases hts : info.timecodeScale with
    | none => simp only [hd]; exact hm
    | some ts =>
        simp only [hd, hts, if_neg (not_lt.mpr hle)]
        exact hm
  · intro h
    unfold MkvMetadata.processInfo
    rw [Metadata.has_eq_false_iff, MkvMetadata.processInfoRest_valuesOf_duration]
    unfold MkvMetadata.processInfoDuration
    rcases h with h | h
    · simp only [h]; exact hm
    · simp only [h]; cases info.duration <;> exact hm

/-- Claim C3, witness: raw duration 5000 with timecode scale 1,000,000
gives exactly 5.0 seconds. -/
theorem claimC3_witness :
    (MkvMetadata.processInfo MultiMeta.empty
      ⟨some 5000, some 1000000, none, none, none, none⟩).meta.get? .duration =
      some (.rat 5) := by
  have h := (claimC3 MultiMeta.empty
    ⟨some 5000, some 1000000, none, none, none, none⟩ rfl).1
    5000 1000000 rfl rfl (by norm_num)
  rw [h]
  norm_num

/-! ## Claim C4 -/

/-- Claim C4: on a Matroska `Info` block carrying both a writing
application and a (non-empty) muxing application, the producer attribute
of the resulting record equals the muxing-application value — the
later-written source wins. -/
theorem claimC4 (m : MultiMeta) (info : MkvInfo) (w x : String)
    (hw : info.writingApp = some w) (hx : info.muxingApp = some x)
    (hm : m.meta.valuesOf .producer = []) (hxe : x ≠ "") :
    (MkvMetadata.processInfo m info).meta.get? .producer = some (.str x) := by
  rcases info with ⟨dur, ts, dt, wa, xa, ti⟩
  simp only at hw hx
  subst hw
  subst hx
  have h0 : (MkvMetadata.processInfoDuration m
      ⟨dur, ts, dt, some w, some x, ti⟩).meta.valuesOf .producer = [] := by
    rw [MkvMetadata.processInfoDuration_valuesOf_producer]
    exact hm
  unfold MkvMetadata.processInfo MkvMetadata.processInfoRest
  cases dt with
  | none =>
      cases ti with
      | none =>
          rw [Metadata.get?]
          exact MultiMeta.producer_override _ w x h0 hxe
      | some t =>
          rw [Metadata.get?, MultiMeta.valuesOf_setMeta_ne _ _ _ _ (by decide)]
          exact MultiMeta.producer_override _ w x h0 hxe
  | some dv =>
      have h1 : ((MkvMetadata.processInfoDuration m
          ⟨dur, ts, some dv, some w, some x, ti⟩).setMeta .creation_date
          (.str (dateToDatetime dv))).meta.valuesOf .producer = [] := by
        rw [MultiMeta.valuesOf_setMeta_ne _ _ _ _ (by decide)]
        exact h0
      cases ti with
      | none =>
          rw [Metadata.get?]
          exact MultiMeta.producer_override _ w x h1 hxe
      | some t =>
          rw [Metadata.get?, MultiMeta.valuesOf_setMeta_ne _ _ _ _ (by decide)]
          exact MultiMeta.producer_override _ w x h1 hxe

/-- Claim C4, witness: writing application "mkvmerge", muxing application
"libebml" give producer "libebml". -/
theorem claimC4_witness :
    (MkvMetadata.processInfo MultiMeta.empty
      ⟨none, none, none, some "mkvmerge", some "libebml", none⟩).meta.get?
        .producer = some (.str "libebml") :=
  claimC4 MultiMeta.empty
    ⟨none, none, none, some "mkvmerge", some "libebml", none⟩
    "mkvmerge" "libebml" rfl rfl rfl (by decide)

/-! ## Claim C5 -/

/-- Claim C5: track extraction is per-track: the tracks loop leaves the
top-level attributes untouched and appends, in source order, exactly one
group entry per classified track, each computed from that track alone; a
video track whose codec field is missing still contributes its
partially-filled record (the common fields read before the failure). -/
theorem claimC5 (m : MultiMeta) (tracks : List MkvTrack) (t : MkvTrack)
    (hty : t.trackType = some "video") (hc : t.codecID = none) :
    (MkvMetadata.processTracks m tracks).meta = m.meta ∧
    (MkvMetadata.processTracks m tracks).groups =
      m.groups ++ tracks.filterMap MkvMetadata.trackGroupEntry ∧
    MkvMetadata.trackGroupEntry t =
      some ("video[]", "Video stream",
        MkvMetadata.trackCommon t Metadata.empty) := by
  have key : ∀ (l : List MkvTrack) (m' : MultiMeta),
      (MkvMetadata.processTracks m' l).meta = m'.meta ∧
      (MkvMetadata.processTracks m' l).groups =
        m'.groups ++ l.filterMap MkvMetadata.trackGroupEntry := by
    intro l
    induction l with
    | nil => intro m'; simp [MkvMetadata.processTracks]
    | cons t' l ih =>
        intro m'
        have hstep : MkvMetadata.processTracks m' (t' :: l) =
            MkvMetadata.processTracks (MkvMetadata.processTrack m' t') l := by
          simp [MkvMetadata.processTracks]
        rw [hstep]
        cases hgt : MkvMetadata.trackGroupEntry t' with
        | none =>
            have hpt : MkvMetadata.processTrack m' t' = m' := by
              simp [MkvMetadata.processTrack, hgt]
            rw [hpt]
            rcases ih m' with ⟨h1, h2⟩
            refine ⟨h1, ?_⟩
            rw [h2, List.filterMap_cons, hgt]
        | some e =>
            obtain ⟨n, d, r⟩ := e
            have hpt : MkvMetadata.processTrack m' t' = m'.addGroup n d r := by
              simp [MkvMetadata.processTrack, hgt]
            rw [hpt]
            rcases ih (m'.addGroup n d r) with ⟨h1, h2⟩
            refine ⟨h1, ?_⟩
            rw [h2, List.filterMap_cons, hgt]
            simp [MultiMeta.addGroup]
  refine ⟨(key tracks m).1, (key tracks m).2, ?_⟩
  simp [MkvMetadata.trackGroupEntry, MkvMetadata.processVideoBody, hty, hc]

/-- Claim C5, witness: a full video track, a video track with a missing
codec field, and an audio track produce three group entries in source
order, the middle one partially filled. -/
theorem claimC5_witness :
    (MkvMetadata.processTracks MultiMeta.empty
      [⟨some "video", some "a", none, some "V_VP8", none, none⟩,
       ⟨some "video", some "b", none, none, none, none⟩,
       ⟨some "audio", none, none, some "A_AAC", none, none⟩]).meta =
      MultiMeta.empty.meta ∧
    (MkvMetadata.processTracks MultiMeta.empty
      [⟨some "video", some "a", none, some "V_VP8", none, none⟩,
       ⟨some "video", some "b", none, none, none, none⟩,
       ⟨some "audio", none, none, some "A_AAC", none, none⟩]).groups =
      MultiMeta.empty.groups ++
        [⟨some "video", some "a", none, some "V_VP8", none, none⟩,
         ⟨some "video", some "b", none, none, none, none⟩,
         ⟨some "audio", none, none, some "A_AAC", none, none⟩].filterMap
          MkvMetadata.trackGroupEntry ∧
    MkvMetadata.trackGroupEntry
      ⟨some "video", some "b", none, none, none, none⟩ =
      some ("video[]", "Video stream",
        MkvMetadata.trackCommon
          ⟨some "video", some "b", none, none, none, none⟩ Metadata.empty) :=
  claimC5 MultiMeta.empty
    [⟨some "video", some "a", none, some "V_VP8", none, none⟩,
     ⟨some "video", some "b", none, none, none, none⟩,
     ⟨some "audio", none, none, some "A_AAC", none, none⟩]
    ⟨some "video", some "b", none, none, none, none⟩ rfl rfl

/-! ## Claim C8 -/

/-- Claim C8: on a MOV movie header the duration attribute equals the raw
tick count multiplied by 1000 and divided by the time-scale field
(Python 2 integer division). -/
theorem claimC8 (m : Metadata) (hdr : MovHdr) (hts : hdr.time_scale ≠ 0)
    (hm : m.valuesOf .duration = []) :
    (MovMetadata.processMovieHeader m hdr).map (fun r => r.get? .duration) =
      Except.ok (some (.int (hdr.duration * 1000 / hdr.time_scale))) := by
  unfold MovMetadata.processMovieHeader
  rw [if_neg hts]
  simp only [Except.map]
  congr 1
  unfold Metadata.get?
  rw [
    Metadata.valuesOf_set_ne _ _ _ _ (by decide),
    Metadata.valuesOf_set_ne _ _ _ _ (by decide),
    Metadata.valuesOf_set_ne _ _ _ _ (by decide),
    Metadata.valuesOf_set_ne _ _ _ _ (by decide)]
  exact Metadata.getLast_valuesOf_set m .duration _ rfl
    (by rw [hm]; exact List.not_mem_nil _)

/-- Claim C8, witness: 5000 ticks at time scale 1000 give 5000
milliseconds. -/
theorem claimC8_witness :
    (MovMetadata.processMovieHeader Metadata.empty
      ⟨5000, 1000, "2009-01-01", "2009-01-02", 1, 255⟩).map
        (fun r => r.get? .duration) = Except.ok (some (.int 5000)) := by
  have h := claimC8 Metadata.empty
    ⟨5000, 1000, "2009-01-01", "2009-01-02", 1, 255⟩ (by decide) rfl
  simpa using h

/-! ### FLV lemmas -/

/-- Each successful side-channel item assignment preserves the groups and
the bit-rate candidates (no AMF key maps to `bit_rate` or adds groups). -/
theorem FlvMetadata.extractAMFItem_ok (m m' : MultiMeta) (e : AmfItem)
    (h : FlvMetadata.extractAMFItem m e = .ok m') :
    m'.groups = m.groups ∧
    m'.meta.valuesOf .bit_rate = m.meta.valuesOf .bit_rate := by
  unfold FlvMetadata.extractAMFItem at h
  repeat' split at h
  all_goals cases h
  all_goals
    first
    | exact ⟨rfl, rfl⟩
    | exact ⟨rfl, Metadata.valuesOf_set_ne _ _ _ _ (by decide)⟩

/-- The side-channel scan preserves the groups and the bit-rate
candidates. -/
theorem FlvMetadata.extractAMF_ok (items : List AmfItem) :
    ∀ m m' : MultiMeta, FlvMetadata.extractAMF m items = .ok m' →
      m'.groups = m.groups ∧
      m'.meta.valuesOf .bit_rate = m.meta.valuesOf .bit_rate := by
  induction items with
  | nil =>
      intro m m' h
      unfold FlvMetadata.extractAMF at h
      simp only [List.foldlM_nil] at h
      cases h
      exact ⟨rfl, rfl⟩
  | cons e items ih =>
      intro m m' h
      unfold FlvMetadata.extractAMF at h
      rw [List.foldlM_cons] at h
      cases hstep : FlvMetadata.extractAMFItem m e with
      | error err => rw [hstep] at h; cases h
      | ok m1 =>
          rw [hstep] at h
          have h2 : FlvMetadata.extractAMF m1 items = .ok m' := h
          obtain ⟨hg1, hb1⟩ := FlvMetadata.extractAMFItem_ok m m1 e hstep
          obtain ⟨hg2, hb2⟩ := ih m1 m' h2
          exact ⟨hg2.trans hg1, hb2.trans hb1⟩

theorem FlvMetadata.preAMF_meta (flv : FlvFile) :
    (FlvMetadata.preAMF flv).meta =
      Metadata.empty.set .format_version (.str flv.description) := by
  unfold FlvMetadata.preAMF
  cases flv.audio.head? <;> cases flv.video.head? <;> rfl

theorem FlvMetadata.preAMF_groups (flv : FlvFile) :
    (FlvMetadata.preAMF flv).groups =
      (match flv.audio.head? with
        | some audio => [("audio", "", FlvMetadata.audioMeta audio)]
        | none => []) ++
      (match flv.video.head? with
        | some video =>
            [("video", "",
              Metadata.empty.set .compression (.str video.codecDisplay))]
        | none => []) := by
  unfold FlvMetadata.preAMF
  cases flv.audio.head? <;> cases flv.video.head? <;>
    simp [MultiMeta.addGroup, MultiMeta.empty, MultiMeta.setMeta]

/-- The record reaching the final bit-rate step has no bit-rate candidate
and the groups of the `audio[0]` / `video[0]` section. -/
theorem FlvMetadata.extractPre_ok (flv : FlvFile) (m0 : MultiMeta)
    (h : FlvMetadata.extractPre flv = .ok m0) :
    m0.meta.valuesOf .bit_rate = [] ∧
    m0.groups = (FlvMetadata.preAMF flv).groups := by
  have hbase : (FlvMetadata.preAMF flv).meta.valuesOf .bit_rate = [] := by
    rw [FlvMetadata.preAMF_meta, Metadata.valuesOf_set_ne _ _ _ _ (by decide)]
    rfl
  unfold FlvMetadata.extractPre at h
  cases hmd : flv.metadataEntry1 with
  | none =>
      rw [hmd] at h
      cases h
      exact ⟨hbase, rfl⟩
  | some items =>
      rw [hmd] at h
      obtain ⟨hg, hb⟩ := FlvMetadata.extractAMF_ok items _ m0 h
      exact ⟨hb.trans hbase, hg⟩

/-- Case analysis of the final FLV bit-rate step: either no (rational)
duration was established and the record is unchanged, or the derived
bit rate is appended. -/
theorem FlvMetadata.finalize_spec (size : Nat) (m0 m : MultiMeta)
    (h : FlvMetadata.finalize size m0 = .ok m) :
    ((∀ q : ℚ, m0.meta.get? .duration ≠ some (.rat q)) ∧ m = m0) ∨
    ∃ q : ℚ, m0.meta.get? .duration = some (.rat q) ∧ q ≠ 0 ∧
      m = m0.setMeta .bit_rate (.rat ((size : ℚ) / q)) := by
  unfold FlvMetadata.finalize at h
  split at h
  · split at h
    · next q heq =>
        by_cases hq0 : q = 0
        · rw [if_pos hq0] at h; cases h
        · rw [if_neg hq0] at h
          cases h
          exact Or.inr ⟨q, heq, hq0, rfl⟩
    · next hne =>
        cases h
        refine Or.inl ⟨?_, rfl⟩
        intro q hq
        exact hne q hq
  · next hd =>
      cases h
      refine Or.inl ⟨?_, rfl⟩
      have hv : m0.meta.valuesOf .duration = [] := by
        rw [← Metadata.has_eq_false_iff]
        exact Bool.not_eq_true _ |>.mp hd
      intro q hq
      rw [Metadata.get?, hv] at hq
      cases hq

/-! ## Claim C2 -/

/-- Claim C2: after FLV extraction, whenever a duration was established
from the side channel the bit rate equals the total stream size divided
by the duration in seconds (set as the last step), and the bit rate is
absent whenever no duration was established. -/
theorem claimC2 (flv : FlvFile) (m : MultiMeta)
    (h : FlvMetadata.extract flv = .ok m) :
    (∀ q : ℚ, m.meta.get? .duration = some (.rat q) →
      m.meta.get? .bit_rate = some (.rat ((flv.size : ℚ) / q))) ∧
    (m.meta.has .duration = false → m.meta.has .bit_rate = false) := by
  unfold FlvMetadata.extract at h
  cases hpre : FlvMetadata.extractPre flv with
  | error e => rw [hpre] at h; cases h
  | ok m0 =>
      rw [hpre] at h
      have hfin : FlvMetadata.finalize flv.size m0 = .ok m := h
      obtain ⟨hbr, hgr⟩ := FlvMetadata.extractPre_ok flv m0 hpre
      rcases FlvMetadata.finalize_spec flv.size m0 m hfin with
        ⟨hnr, hm⟩ | ⟨q, hq, hq0, hm⟩
      · subst hm
        refine ⟨?_, ?_⟩
        · intro q' hdur
          exact absurd hdur (hnr q')
        · intro _
          rw [Metadata.has_eq_false_iff]
          exact hbr
      · subst hm
        refine ⟨?_, ?_⟩
        · intro q' hdur
          rw [show (m0.setMeta .bit_rate (.rat ((flv.size : ℚ) / q))).meta =
              m0.meta.set .bit_rate (.rat ((flv.size : ℚ) / q)) from rfl,
            Metadata.get?, Metadata.valuesOf_set_ne _ _ _ _ (by decide)]
            at hdur
          rw [← Metadata.get?] at hdur
          rw [hq] at hdur
          have hqq : q = q' := by
            injection hdur with hdur'
            injection hdur'
          subst hqq
          rw [show (m0.setMeta .bit_rate (.rat ((flv.size : ℚ) / q))).meta =
              m0.meta.set .bit_rate (.rat ((flv.size : ℚ) / q)) from rfl,
            Metadata.get?]
          exact Metadata.getLast_valuesOf_set m0.meta .bit_rate _ rfl
            (by rw [hbr]; exact List.not_mem_nil _)
        · intro hdf
          exfalso
          rw [Metadata.has_eq_false_iff,
            show (m0.setMeta .bit_rate (.rat ((flv.size : ℚ) / q))).meta =
              m0.meta.set .bit_rate (.rat ((flv.size : ℚ) / q)) from rfl,
            Metadata.valuesOf_set_ne _ _ _ _ (by decide)] at hdf
          rw [Metadata.get?, hdf] at hq
          cases hq

/-- Claim C2, witness: side-channel duration 12.5 seconds and stream size
1,000,000 give bit rate 1000000 / 12.5 = 80,000. -/
theorem claimC2_witness :
    FlvMetadata.extract ⟨[], [], "flv", some [⟨"duration", .num (25 / 2), ""⟩],
        1000000⟩ =
      .ok ⟨⟨[(.format_version, .str "flv"), (.duration, .rat (25 / 2)),
        (.bit_rate, .rat (((1000000 : Nat) : ℚ) / (25 / 2)))]⟩, []⟩ ∧
    (⟨⟨[(.format_version, .str "flv"), (.duration, .rat (25 / 2)),
        (.bit_rate, .rat (((1000000 : Nat) : ℚ) / (25 / 2)))]⟩, []⟩ :
      MultiMeta).meta.get? .bit_rate =
        some (.rat (((1000000 : Nat) : ℚ) / (25 / 2))) ∧
    ((1000000 : Nat) : ℚ) / (25 / 2) = 80000 := by
  have hne : ¬ ((25 : ℚ) / 2 = 0) := by norm_num
  have h1 : FlvMetadata.extract
      ⟨[], [], "flv", some [⟨"duration", .num (25 / 2), ""⟩], 1000000⟩ =
      .ok ⟨⟨[(.format_version, .str "flv"), (.duration, .rat (25 / 2)),
        (.bit_rate, .rat (((1000000 : Nat) : ℚ) / (25 / 2)))]⟩, []⟩ := by
    show (if (25 : ℚ) / 2 = 0 then Except.error "ZeroDivisionError"
      else Except.ok
        ((⟨⟨[(.format_version, .str "flv"), (.duration, .rat (25 / 2))]⟩,
          []⟩ : MultiMeta).setMeta .bit_rate
          (.rat (((1000000 : Nat) : ℚ) / (25 / 2))))) = _
    rw [if_neg hne]
    rfl
  refine ⟨h1, ?_, by norm_num⟩
  exact (claimC2 ⟨[], [], "flv", some [⟨"duration", .num (25 / 2), ""⟩],
    1000000⟩ _ h1).1 (25 / 2) rfl

/-! ## Claim C9 -/

/-- Claim C9: the FLV extractor inspects only the first audio and the
first video stream header — truncating the header arrays after their
first element does not change the result — and the returned record holds
at most one audio group and at most one video group. -/
theorem claimC9 (flv : FlvFile) :
    FlvMetadata.extract
      ⟨flv.audio.take 1, flv.video.take 1, flv.description,
        flv.metadataEntry1, flv.size⟩ = FlvMetadata.extract flv ∧
    ∀ m : MultiMeta, FlvMetadata.extract flv = .ok m →
      (m.groups.filter (fun g => g.1 = "audio")).length ≤ 1 ∧
      (m.groups.filter (fun g => g.1 = "video")).length ≤ 1 := by
  constructor
  · have htake : ∀ {α : Type} (l : List α), (l.take 1).head? = l.head? := by
      intro α l
      cases l <;> rfl
    have hpre : FlvMetadata.preAMF
        ⟨flv.audio.take 1, flv.video.take 1, flv.description,
          flv.metadataEntry1, flv.size⟩ = FlvMetadata.preAMF flv := by
      unfold FlvMetadata.preAMF
      simp only [htake]
    have hxp : FlvMetadata.extractPre
        ⟨flv.audio.take 1, flv.video.take 1, flv.description,
          flv.metadataEntry1, flv.size⟩ = FlvMetadata.extractPre flv := by
      unfold FlvMetadata.extractPre
      rw [hpre]
    unfold FlvMetadata.extract
    rw [hxp]
  · intro m h
    unfold FlvMetadata.extract at h
    cases hpre : FlvMetadata.extractPre flv with
    | error e => rw [hpre] at h; cases h
    | ok m0 =>
        rw [hpre] at h
        have hfin : FlvMetadata.finalize flv.size m0 = .ok m := h
        obtain ⟨hbr, hgr⟩ := FlvMetadata.extractPre_ok flv m0 hpre
        have hgm : m.groups = (FlvMetadata.preAMF flv).groups := by
          rcases FlvMetadata.finalize_spec flv.size m0 m hfin with
            ⟨_, hm⟩ | ⟨q, _, _, hm⟩ <;> subst hm
          · exact hgr
          · rw [MultiMeta.groups_setMeta]
            exact hgr
        rw [hgm, FlvMetadata.preAMF_groups]
        cases flv.audio.head? <;> cases flv.video.head? <;>
          simp [List.filter]

/-- Claim C9, witness: with two audio and two video stream headers the
extractor behaves as with only the first of each, and the record holds
exactly one audio and one video group. -/
theorem claimC9_witness :
    FlvMetadata.extract
      ⟨([⟨44100, true, "MP3", none, true⟩,
         ⟨22050, false, "Uncompressed", none, false⟩] :
          List FlvAudioHdr).take 1,
        ([⟨"H.263"⟩, ⟨"VP6"⟩] : List FlvVideoHdr).take 1, "flv", none, 7⟩ =
      FlvMetadata.extract
        ⟨[⟨44100, true, "MP3", none, true⟩,
          ⟨22050, false, "Uncompressed", none, false⟩],
         [⟨"H.263"⟩, ⟨"VP6"⟩], "flv", none, 7⟩ ∧
    (((⟨⟨[(.format_version, .str "flv")]⟩,
        [("audio", "", ⟨[(.sample_rate, .int 44100),
          (.bits_per_sample, .int 16), (.compression, .str "MP3"),
          (.nb_channel, .int 2)]⟩),
         ("video", "", ⟨[(.compression, .str "H.263")]⟩)]⟩ :
        MultiMeta).groups.filter (fun g => g.1 = "audio")).length ≤ 1 ∧
     ((⟨⟨[(.format_version, .str "flv")]⟩,
        [("audio", "", ⟨[(.sample_rate, .int 44100),
          (.bits_per_sample, .int 16), (.compression, .str "MP3"),
          (.nb_channel, .int 2)]⟩),
         ("video", "", ⟨[(.compression, .str "H.263")]⟩)]⟩ :
        MultiMeta).groups.filter (fun g => g.1 = "video")).length ≤ 1) :=
  ⟨(claimC9 ⟨[⟨44100, true, "MP3", none, true⟩,
      ⟨22050, false, "Uncompressed", none, false⟩],
     [⟨"H.263"⟩, ⟨"VP6"⟩], "flv", none, 7⟩).1,
   (claimC9 ⟨[⟨44100, true, "MP3", none, true⟩,
      ⟨22050, false, "Uncompressed", none, false⟩],
     [⟨"H.263"⟩, ⟨"VP6"⟩], "flv", none, 7⟩).2 _ rfl⟩

/-! ### ASF lemmas -/

/-- The tri-state VBR flag captured while processing a header's extended
descriptors (`None` when the `ext_desc` block is absent). -/
def AsfMetadata.headerIsVbr (header : AsfHeader) : Option Bool :=
  match header.ext_desc with
  | some descs => (AsfMetadata.processExtDesc MultiMeta.empty descs).2
  | none => none

/-- No extended-descriptor key remaps to the bit-rate attribute. -/
theorem AsfMetadata.ext_desc_to_attr_ne_bitrate (k : String) (a : Attr)
    (h : AsfMetadata.EXT_DESC_TO_ATTR k = some a) : a ≠ .bit_rate := by
  unfold AsfMetadata.EXT_DESC_TO_ATTR at h
  split at h <;> first | (cases h; decide) | (cases h)

/-- Storing the remaining descriptor data never touches the bit-rate
attribute. -/
theorem AsfMetadata.storeData_valuesOf_bitrate (d : DataMap) :
    ∀ m : MultiMeta, (AsfMetadata.storeData m d).meta.valuesOf .bit_rate =
      m.meta.valuesOf .bit_rate := by
  induction d with
  | nil => intro m; rfl
  | cons kv d ih =>
      intro m
      have hstep : (AsfMetadata.storeStep m kv).meta.valuesOf .bit_rate =
          m.meta.valuesOf .bit_rate := by
        unfold AsfMetadata.storeStep
        cases hmap : AsfMetadata.EXT_DESC_TO_ATTR kv.1 with
        | none => exact MultiMeta.valuesOf_setMeta_ne _ _ _ _ (by decide)
        | some a =>
            exact MultiMeta.valuesOf_setMeta_ne _ _ _ _
              (Ne.symm (AsfMetadata.ext_desc_to_attr_ne_bitrate kv.1 a hmap))
      have : AsfMetadata.storeData m (kv :: d) =
          AsfMetadata.storeData (AsfMetadata.storeStep m kv) d := rfl
      rw [this, ih, hstep]

/-- Storing the remaining descriptor data only appends attribute values:
every candidate already present stays present. -/
theorem AsfMetadata.storeData_mem_mono (d : DataMap) :
    ∀ (m : MultiMeta) (b : Attr) (v : MValue), v ∈ m.meta.valuesOf b →
      v ∈ (AsfMetadata.storeData m d).meta.valuesOf b := by
  induction d with
  | nil => intro m b v h; exact h
  | cons kv d ih =>
      intro m b v h
      have : AsfMetadata.storeData m (kv :: d) =
          AsfMetadata.storeData (AsfMetadata.storeStep m kv) d := rfl
      rw [this]
      refine ih _ b v ?_
      unfold AsfMetadata.storeStep
      cases AsfMetadata.EXT_DESC_TO_ATTR kv.1 with
      | none => exact Metadata.mem_valuesOf_set_mono _ _ _ _ _ h
      | some a => exact Metadata.mem_valuesOf_set_mono _ _ _ _ _ h

/-- The whole extended-descriptor step never touches the bit-rate
attribute. -/
theorem AsfMetadata.processExtDesc_valuesOf_bitrate (m : MultiMeta)
    (descs : List AsfDescriptor) :
    (AsfMetadata.processExtDesc m descs).1.meta.valuesOf .bit_rate =
      m.meta.valuesOf .bit_rate := by
  unfold AsfMetadata.processExtDesc
  rcases hmt : AsfMetadata.mergeTool m (AsfMetadata.buildData descs)
    with ⟨m1, d1⟩
  have hm1 : m1.meta.valuesOf .bit_rate = m.meta.valuesOf .bit_rate := by
    unfold AsfMetadata.mergeTool at hmt
    split at hmt
    · cases hmt
      exact MultiMeta.valuesOf_setMeta_ne _ _ _ _ (by decide)
    · cases hmt
      rfl
  rcases hiv : AsfMetadata.takeIsVbr d1 with ⟨vbr, d2⟩
  simp only [hmt, hiv]
  rw [AsfMetadata.storeData_valuesOf_bitrate]
  exact hm1

/-- The per-stream loop only appends groups; the top-level attributes are
untouched. -/
theorem AsfMetadata.processStreams_meta (header : AsfHeader)
    (streams : List AsfStreamContent) :
    ∀ (m : MultiMeta) (i ai vi : Nat),
      (AsfMetadata.processStreams header m streams i ai vi).meta = m.meta := by
  induction streams with
  | nil => intro m i ai vi; rfl
  | cons s rest ih =>
      intro m i ai vi
      cases s with
      | audioHdr twocc sr bps => exact ih _ _ _ _
      | videoHdr w h bmp => exact ih _ _ _ _
      | otherContent => exact ih _ _ _ _

/-- The top-level metadata block sets only title, author and copyright. -/
theorem AsfMetadata.processMetadataBlock_valuesOf (m : MultiMeta)
    (header : AsfHeader) (b : Attr) (hb1 : b ≠ .title) (hb2 : b ≠ .author)
    (hb3 : b ≠ .copyright) :
    (AsfMetadata.processMetadataBlock m header).meta.valuesOf b =
      m.meta.valuesOf b := by
  unfold AsfMetadata.processMetadataBlock
  cases header.metadataTitle <;> cases header.metadataAuthor <;>
    cases header.metadataCopyright <;>
    simp [MultiMeta.setMeta, Metadata.valuesOf_set_ne _ _ _ _ hb1,
      Metadata.valuesOf_set_ne _ _ _ _ hb2,
      Metadata.valuesOf_set_ne _ _ _ _ hb3]

/-! ## Claim C7 -/

/-- Claim C7: an ASF header with a file-properties block stores bit_rate
as the pair of the raw max-bitrate value and a descriptive text chosen by
the tri-state VBR flag captured from the extended descriptors; when the
flag is true the text begins with "VBR (". -/
theorem claimC7 (header : AsfHeader) (prop : AsfFileProp)
    (hfp : header.file_prop = some prop) :
    (AsfMetadata.processHeader header).meta.get? .bit_rate =
      some (.pair prop.max_bitrate_value
        (AsfMetadata.bitRateText (AsfMetadata.headerIsVbr header)
          prop.max_bitrate_display)) ∧
    (AsfMetadata.headerIsVbr header = some true →
      ∃ rest, AsfMetadata.bitRateText (AsfMetadata.headerIsVbr header)
        prop.max_bitrate_display = "VBR (" ++ rest) := by
  have hstep : ∀ (m1 : MultiMeta) (vbr : Option Bool),
      m1.meta.valuesOf .bit_rate = [] →
      (AsfMetadata.processMetadataBlock
        (AsfMetadata.processStreams header
          (AsfMetadata.processFileProp m1 vbr prop) header.stream_props 0 1 1)
        header).meta.get? .bit_rate =
        some (.pair prop.max_bitrate_value
          (AsfMetadata.bitRateText vbr prop.max_bitrate_display)) := by
    intro m1 vbr h1
    rw [Metadata.get?,
      AsfMetadata.processMetadataBlock_valuesOf _ _ _ (by decide) (by decide)
        (by decide),
      AsfMetadata.processStreams_meta header header.stream_props _ 0 1 1]
    unfold AsfMetadata.processFileProp
    have h2 : ((if prop.seekable then
        ((m1.setMeta .creation_date (.str prop.creation_date)).setMeta
          .duration (.rat (durationWin64 prop.play_duration))).setMeta
          .comment (.str "Is seekable")
      else
        (m1.setMeta .creation_date (.str prop.creation_date)).setMeta
          .duration
          (.rat (durationWin64 prop.play_duration)))).meta.valuesOf
        .bit_rate = [] := by
      cases prop.seekable <;>
        simp only [if_true, if_false, Bool.false_eq_true,
          MultiMeta.valuesOf_setMeta_ne _ _ _ _ (by decide : Attr.bit_rate ≠
            Attr.comment),
          MultiMeta.valuesOf_setMeta_ne _ _ _ _ (by decide : Attr.bit_rate ≠
            Attr.duration),
          MultiMeta.valuesOf_setMeta_ne _ _ _ _ (by decide : Attr.bit_rate ≠
            Attr.creation_date)] <;>
        exact h1
    exact Metadata.getLast_valuesOf_set _ _ _ rfl
      (by rw [h2]; exact List.not_mem_nil _)
  constructor
  · unfold AsfMetadata.processHeader
    cases hed : header.ext_desc with
    | none =>
        have hvbr : AsfMetadata.headerIsVbr header = none := by
          unfold AsfMetadata.headerIsVbr
          rw [hed]
        rw [hvbr]
        simp only [hfp]
        exact hstep MultiMeta.empty none rfl
    | some descs =>
        rcases hpe : AsfMetadata.processExtDesc MultiMeta.empty descs
          with ⟨m1, vbr⟩
        have hvbr : AsfMetadata.headerIsVbr header = vbr := by
          unfold AsfMetadata.headerIsVbr
          simp only [hed, hpe]
        have hm1 : m1.meta.valuesOf .bit_rate = [] := by
          have h := AsfMetadata.processExtDesc_valuesOf_bitrate
            MultiMeta.empty descs
          rw [hpe] at h
          exact h
        rw [hvbr]
        simp only [hpe, hfp]
        exact hstep m1 vbr hm1
  · intro hv
    rw [hv]
    refine ⟨prop.max_bitrate_display ++ " max)", ?_⟩
    unfold AsfMetadata.bitRateText
    rw [if_pos rfl]
    exact String.append_assoc _ _ _

/-- Claim C7, witness: VBR flag set (via an `IsVBR` descriptor equal to 1)
and max bitrate 128000 give the pair (128000, "VBR (128000 max)"). -/
theorem claimC7_witness :
    (AsfMetadata.processHeader
      ⟨some [⟨3, "IsVBR", .int 1⟩],
        some ⟨"2009-01-01", 0, false, 128000, "128000"⟩, [], [], none, none,
        none⟩).meta.get? .bit_rate =
      some (.pair 128000 "VBR (128000 max)") := by
  have h := (claimC7
    ⟨some [⟨3, "IsVBR", .int 1⟩],
      some ⟨"2009-01-01", 0, false, 128000, "128000"⟩, [], [], none, none,
      none⟩
    ⟨"2009-01-01", 0, false, 128000, "128000"⟩ rfl).1
  rw [h]
  rfl

/-! ### Dictionary lemmas -/

theorem dictLookup_erase_self (d : DataMap) (k : String) :
    dictLookup (dictErase d k) k = none := by
  induction d with
  | nil => rfl
  | cons e d ih =>
      by_cases he : e.1 = k
      · simpa [dictLookup, dictErase, List.filter_cons, he] using ih
      · simpa [dictLookup, dictErase, List.filter_cons, List.find?_cons, he]
          using ih

theorem dictLookup_erase_ne (d : DataMap) (k k' : String) (h : k' ≠ k) :
    dictLookup (dictErase d k) k' = dictLookup d k' := by
  induction d with
  | nil => rfl
  | cons e d ih =>
      by_cases he : e.1 = k
      · simpa [dictLookup, dictErase, List.filter_cons, List.find?_cons, he,
          Ne.symm h] using ih
      · by_cases he2 : e.1 = k'
        · simp [dictLookup, dictErase, List.filter_cons, List.find?_cons,
            he, he2, h]
        · simpa [dictLookup, dictErase, List.filter_cons, List.find?_cons,
            he, he2] using ih

/-! ## Claim C6 -/

/-- Claim C6: when both a `ToolName` and a `ToolVersion` key survive the
descriptor filtering, the extractor sets producer to
"name (version version)" and removes both keys from the data passed to
the remaining processing, so neither is remapped nor folded into a
comment; the merged producer string is among the record's producer
candidates. -/
theorem claimC6 (m : MultiMeta) (descs : List AsfDescriptor)
    (tn tv : DescValue)
    (h1 : dictLookup (AsfMetadata.buildData descs) "ToolName" = some tn)
    (h2 : dictLookup (AsfMetadata.buildData descs) "ToolVersion" = some tv) :
    AsfMetadata.processExtDesc m descs =
      (AsfMetadata.storeData
        (m.setMeta .producer
          (.str (tn.display ++ " (version " ++ tv.display ++ ")")))
        (AsfMetadata.takeIsVbr
          (dictErase (dictErase (AsfMetadata.buildData descs) "ToolName")
            "ToolVersion")).2,
       (AsfMetadata.takeIsVbr
         (dictErase (dictErase (AsfMetadata.buildData descs) "ToolName")
           "ToolVersion")).1) ∧
    dictLookup (dictErase (dictErase (AsfMetadata.buildData descs)
      "ToolName") "ToolVersion") "ToolName" = none ∧
    dictLookup (dictErase (dictErase (AsfMetadata.buildData descs)
      "ToolName") "ToolVersion") "ToolVersion" = none ∧
    MValue.str (tn.display ++ " (version " ++ tv.display ++ ")") ∈
      (AsfMetadata.processExtDesc m descs).1.meta.valuesOf .producer := by
  have hmerge : AsfMetadata.mergeTool m (AsfMetadata.buildData descs) =
      (m.setMeta .producer
        (.str (tn.display ++ " (version " ++ tv.display ++ ")")),
       dictErase (dictErase (AsfMetadata.buildData descs) "ToolName")
         "ToolVersion") := by
    unfold AsfMetadata.mergeTool
    simp only [h1, h2]
  have hpair : AsfMetadata.processExtDesc m descs =
      (AsfMetadata.storeData
        (m.setMeta .producer
          (.str (tn.display ++ " (version " ++ tv.display ++ ")")))
        (AsfMetadata.takeIsVbr
          (dictErase (dictErase (AsfMetadata.buildData descs) "ToolName")
            "ToolVersion")).2,
       (AsfMetadata.takeIsVbr
         (dictErase (dictErase (AsfMetadata.buildData descs) "ToolName")
           "ToolVersion")).1) := by
    simp only [AsfMetadata.processExtDesc, hmerge]
  have hne : MValue.isEmptyVal
      (.str (tn.display ++ " (version " ++ tv.display ++ ")")) = false := by
    simp only [MValue.isEmptyVal]
    rw [decide_eq_false_iff_not]
    intro hcontr
    have hlen := congrArg String.length hcontr
    simp only [String.length_append] at hlen
    have h10 : (" (version " : String).length = 10 := rfl
    have hp : (")" : String).length = 1 := rfl
    rw [h10, hp] at hlen
    simp only [show ("" : String).length = 0 from rfl] at hlen
    omega
  refine ⟨hpair, ?_, ?_, ?_⟩
  · rw [dictLookup_erase_ne _ _ _ (by decide), dictLookup_erase_self]
  · rw [dictLookup_erase_self]
  · rw [hpair]
    exact AsfMetadata.storeData_mem_mono _ _ _ _
      (Metadata.mem_valuesOf_set _ _ _ hne)

/-- Claim C6, witness: descriptors `WM/ToolName = "X"` and
`WM/ToolVersion = "1"` give producer "X (version 1)" and no comment. -/
theorem claimC6_witness :
    (AsfMetadata.processExtDesc MultiMeta.empty
      [⟨0, "WM/ToolName", .str "X"⟩,
       ⟨0, "WM/ToolVersion", .str "1"⟩]).1.meta.get? .producer =
      some (.str "X (version 1)") ∧
    (AsfMetadata.processExtDesc MultiMeta.empty
      [⟨0, "WM/ToolName", .str "X"⟩,
       ⟨0, "WM/ToolVersion", .str "1"⟩]).1.meta.valuesOf .comment = [] := by
  have h := claimC6 MultiMeta.empty
    [⟨0, "WM/ToolName", .str "X"⟩, ⟨0, "WM/ToolVersion", .str "1"⟩]
    (.str "X") (.str "1") rfl rfl
  exact ⟨by rw [h.1]; rfl, by rw [h.1]; rfl⟩

/-! ## Claim C10 -/

/-- The per-stream loop depends on the header only through the average
bit-rate array. -/
theorem AsfMetadata.processStreams_congr (h1 h2 : AsfHeader)
    (hbr : h1.bit_rates = h2.bit_rates) (streams : List AsfStreamContent) :
    ∀ (m : MultiMeta) (i ai vi : Nat),
      AsfMetadata.processStreams h1 m streams i ai vi =
        AsfMetadata.processStreams h2 m streams i ai vi := by
  have hsp : ∀ i, AsfMetadata.streamProperty h1 i =
      AsfMetadata.streamProperty h2 i := by
    intro i
    unfold AsfMetadata.streamProperty
    rw [hbr]
  induction streams with
  | nil => intro m i ai vi; rfl
  | cons s rest ih =>
      intro m i ai vi
      cases s with
      | audioHdr twocc sr bps =>
          show AsfMetadata.processStreams h1 _ rest _ _ _ = _
          rw [hsp i]
          exact ih _ _ _ _
      | videoHdr w h bmp =>
          show AsfMetadata.processStreams h1 _ rest _ _ _ = _
          rw [hsp i]
          exact ih _ _ _ _
      | otherContent => exact ih _ _ _ _

/-- Claim C10: a descriptor of byte-array type, with a block-listed key,
or with a falsy (empty) decoded value contributes nothing: the extracted
data dictionary — and therefore the whole header processing result — is
the same as if the descriptor were absent. -/
theorem claimC10 (header : AsfHeader) (d : AsfDescriptor)
    (hd : d.type = ASF_TYPE_BYTE_ARRAY ∨
      d.name ∈ AsfMetadata.SKIP_EXT_DESC ∨ d.value.isFalsy = true)
    (ds1 ds2 : List AsfDescriptor) :
    AsfMetadata.buildData (ds1 ++ d :: ds2) =
      AsfMetadata.buildData (ds1 ++ ds2) ∧
    AsfMetadata.processHeader { header with ext_desc := some (ds1 ++ d :: ds2) } =
      AsfMetadata.processHeader { header with ext_desc := some (ds1 ++ ds2) } := by
  have hstep : ∀ acc : DataMap, AsfMetadata.descStep acc d = acc := by
    intro acc
    unfold AsfMetadata.descStep
    by_cases h1 : d.type = ASF_TYPE_BYTE_ARRAY
    · rw [if_pos h1]
    · rw [if_neg h1]
      by_cases h2 : d.name ∈ AsfMetadata.SKIP_EXT_DESC
      · rw [if_pos h2]
      · rw [if_neg h2]
        have h3 : d.value.isFalsy = true := by
          rcases hd with h | h | h
          · exact absurd h h1
          · exact absurd h h2
          · exact h
        cases hv : d.value with
        | str s =>
            rw [hv] at h3
            simp only [makePrintable, h3, if_true]
        | int n =>
            rw [hv] at h3
            simp only [h3, if_true]
  have hbuild : AsfMetadata.buildData (ds1 ++ d :: ds2) =
      AsfMetadata.buildData (ds1 ++ ds2) := by
    unfold AsfMetadata.buildData
    rw [List.foldl_append, List.foldl_append, List.foldl_cons, hstep]
  refine ⟨hbuild, ?_⟩
  obtain ⟨ed, fp, br, sp, mt, ma, mc⟩ := header
  have hpe : AsfMetadata.processExtDesc MultiMeta.empty (ds1 ++ d :: ds2) =
      AsfMetadata.processExtDesc MultiMeta.empty (ds1 ++ ds2) := by
    unfold AsfMetadata.processExtDesc
    rw [hbuild]
  unfold AsfMetadata.processHeader
  simp only [hpe]
  rcases hx : AsfMetadata.processExtDesc MultiMeta.empty (ds1 ++ ds2)
    with ⟨m1, vbr⟩
  simp only [hx]
  rw [AsfMetadata.processStreams_congr
    ⟨some (ds1 ++ d :: ds2), fp, br, sp, mt, ma, mc⟩
    ⟨some (ds1 ++ ds2), fp, br, sp, mt, ma, mc⟩ rfl]
  unfold AsfMetadata.processMetadataBlock
  rfl

/-- Claim C10, witness: a byte-array descriptor between two kept
descriptors changes nothing. -/
theorem claimC10_witness :
    AsfMetadata.buildData
      [⟨0, "Foo", .str "bar"⟩, ⟨1, "Binary", .str "junk"⟩,
       ⟨0, "Baz", .str "qux"⟩] =
      AsfMetadata.buildData [⟨0, "Foo", .str "bar"⟩, ⟨0, "Baz", .str "qux"⟩] ∧
    AsfMetadata.processHeader
      ⟨some [⟨0, "Foo", .str "bar"⟩, ⟨1, "Binary", .str "junk"⟩,
        ⟨0, "Baz", .str "qux"⟩], none, [], [], none, none, none⟩ =
      AsfMetadata.processHeader
        ⟨some [⟨0, "Foo", .str "bar"⟩, ⟨0, "Baz", .str "qux"⟩], none, [], [],
          none, none, none⟩ :=
  claimC10 ⟨none, none, [], [], none, none, none⟩ ⟨1, "Binary", .str "junk"⟩
    (Or.inl rfl) [⟨0, "Foo", .str "bar"⟩] [⟨0, "Baz", .str "qux"⟩]
